import Mathlib

/-!
# Verification of the file-stats-api scan/aggregation core

Shallow embedding of `src/main.py` (directory scan, aggregation, report
building, pagination and the extension-list view), together with proofs of
the specification's testable properties.

The filesystem is external input: a directory walk is modelled as the list
of entries `os.walk` yields, each carrying the file's name, the outcome of
`os.stat` (`none` when `os.stat` raises, as for a vanished or unreadable
file), and the `os.path.islink` answer.  Python strings are Lean `String`s;
`str.lower` / `str.strip` are modelled over the character list (ASCII-range
case mapping, which covers every extension the API concerns itself with).
-/

namespace FileStats

/-- Embedding of Python `str.lower()` (character-wise case mapping). -/
def pyLower (s : String) : String :=
  String.mk (s.data.map Char.toLower)

/-- Embedding of Python `str.strip()`: drop leading and trailing whitespace.
Used by pydantic's `str_strip_whitespace=True` model configuration. -/
def pyStrip (s : String) : String :=
  String.mk (((s.data.dropWhile Char.isWhitespace).reverse.dropWhile
    Char.isWhitespace).reverse)

/-- Embedding of `os.path.isabs` for POSIX paths. -/
def pyIsAbs (s : String) : Bool :=
  s.data.head? = some '/'

/-- Embedding of `os.path.splitext(f)[1]` for a bare filename `f` (no path
separators, as delivered by `os.walk`): the suffix starting at the last `'.'`,
provided some character before that dot is not itself a dot (so dot-only
prefixes such as `".bashrc"` yield the empty extension). -/
def splitextExt (f : String) : String :=
  let cs := f.data
  let revAfter := cs.reverse.takeWhile (fun c => c ≠ '.')
  if revAfter.length = cs.length then ""
  else
    let stemRev := cs.reverse.drop (revAfter.length + 1)
    if stemRev.any (fun c => c ≠ '.') then String.mk ('.' :: revAfter.reverse)
    else ""

/-- The fields of `os.stat_result` read by the program (`follow_symlinks=False`). -/
structure StatResult where
  st_size : Nat
  st_mtime : Int
  st_ctime : Int
  st_atime : Int
  st_ino : Nat
  st_mode : Nat
  st_uid : Nat
  st_gid : Nat
deriving DecidableEq

/-- One entry yielded by the `os.walk` loop: the directory path, the file
name, the outcome of `os.stat(file_path, follow_symlinks=False)` (`none` when
it raises), and the `os.path.islink(file_path)` answer. -/
structure RawFile where
  dirpath : String
  name : String
  stat : Option StatResult
  islink : Bool
deriving DecidableEq

/-- The `FileEntry` pydantic model of `src/main.py`. -/
structure FileEntry where
  size : Nat
  path : String
  name : String
  extension : String
  modified_time : Int
  created_time : Int
  accessed_time : Int
  is_symlink : Bool
  inode : Nat
  mode : Nat
  owner_uid : Nat
  group_gid : Nat
deriving DecidableEq

/-- The `ExtensionStats` pydantic model (its `count >= 1` field constraint is
established as a theorem about every map the program builds). -/
structure ExtensionStats where
  count : Nat
  size : Nat
deriving DecidableEq

/-- The `Report` pydantic model.  The `extensions` dict is an
insertion-ordered association list, like a Python dict. -/
structure Report where
  file_count : Nat
  total_size : Nat
  extensions : List (String × ExtensionStats)
  largest_files : List FileEntry
  all_files : List FileEntry
deriving DecidableEq

/-- The `PaginatedFiles` pydantic model (its computed fields follow). -/
structure PaginatedFiles where
  total : Nat
  limit : Nat
  offset : Nat
  results : List FileEntry
deriving DecidableEq

/-- Computed field `has_next = offset + limit < total`. -/
def PaginatedFiles.has_next (p : PaginatedFiles) : Bool :=
  decide (p.offset + p.limit < p.total)

/-- Computed field `has_previous = offset > 0`. -/
def PaginatedFiles.has_previous (p : PaginatedFiles) : Bool :=
  decide (0 < p.offset)

/-- The `ExtensionInfo` pydantic model (`size_human` is derived display
text and is not modelled). -/
structure ExtensionInfo where
  extension : String
  count : Nat
  size : Nat
deriving DecidableEq

/-- The `ExtensionListResponse` pydantic model. -/
structure ExtensionListResponse where
  path : String
  total_files : Nat
  extensions : List ExtensionInfo
deriving DecidableEq

/-- The `Report.validate_largest_files` field validator: scan adjacent pairs
and reject as soon as an earlier entry is strictly smaller than its
successor. -/
def validate_largest_files : List FileEntry → Bool
  | a :: b :: rest => decide (¬ a.size < b.size) && validate_largest_files (b :: rest)
  | _ => true

/-- One insertion while pydantic rebuilds the `extensions` dict: Python
`dict` assignment semantics — an existing key keeps its position and receives
the new value, a new key is appended. -/
def dictInsert (m : List (String × ExtensionStats)) (k : String) (v : ExtensionStats) :
    List (String × ExtensionStats) :=
  match m with
  | [] => [(k, v)]
  | (k0, v0) :: rest =>
    if k0 = k then (k0, v) :: rest else (k0, v0) :: dictInsert rest k v

/-- pydantic validation of the `Dict[str, ExtensionStats]` field under the
model's `str_strip_whitespace=True` config: the dict is rebuilt in insertion
order with every key whitespace-stripped, so two keys that collide after
stripping merge — the later value silently overwrites the earlier one (values
are model instances and are not revalidated). -/
def stripExtKeys (extensions : List (String × ExtensionStats)) :
    List (String × ExtensionStats) :=
  extensions.foldl (fun m kv => dictInsert m (pyStrip kv.1) kv.2) []

/-- Constructing a `Report` through pydantic: the `max_length=50` bound on
`largest_files` and the `validate_largest_files` validator may reject, and the
keys of the `extensions` dict are whitespace-stripped (merging on collision);
all remaining field constraints are non-negativity, carried by `Nat`. -/
def mkReport (file_count total_size : Nat) (extensions : List (String × ExtensionStats))
    (largest_files all_files : List FileEntry) : Option Report :=
  if largest_files.length ≤ 50 && validate_largest_files largest_files then
    some ⟨file_count, total_size, stripExtKeys extensions, largest_files, all_files⟩
  else none

/-- Constructing a `FileEntry` through pydantic, from a walk entry, its stat
result and the already-computed extension.  `os.path.join` is `dirpath ++
"/" ++ name` and `os.path.abspath` is the identity (the walk is rooted at a
validated absolute directory).  pydantic's `str_strip_whitespace=True` strips
every `str` field first; `name` then has `min_length=1` and `path` has
`min_length=1` plus the absolute-path validator, so a file whose stripped
name is empty (e.g. a file literally named `" "`) makes construction raise. -/
def mkFileEntry (rf : RawFile) (stats : StatResult) (ext : String) : Option FileEntry :=
  let path := pyStrip (rf.dirpath ++ "/" ++ rf.name)
  let name := pyStrip rf.name
  if name = "" ∨ path = "" ∨ ¬ pyIsAbs path then none
  else some ⟨stats.st_size, path, name, pyStrip ext, stats.st_mtime, stats.st_ctime,
    stats.st_atime, rf.islink, stats.st_ino, stats.st_mode, stats.st_uid, stats.st_gid⟩

/-- The filter test of the scan loop: `if extension_filter and ext !=
extension_filter.lower(): continue`.  The Python truthiness of a string makes
an empty filter inactive. -/
def skipByFilter (extension_filter : Option String) (ext : String) : Bool :=
  match extension_filter with
  | none => false
  | some f => if f = "" then false else decide (ext ≠ pyLower f)

/-- The running aggregation state of `collect_file_stats`: the per-extension
accumulator is an insertion-ordered association list of
`(key, (count, size))`, like the Python `defaultdict`. -/
structure AggState where
  file_count : Nat
  total_size : Nat
  extensions : List (String × Nat × Nat)
  all_files : List FileEntry
deriving DecidableEq

/-- `extensions[ext]["count"] += 1; extensions[ext]["size"] += size` on the
`defaultdict`: update the existing entry in place, or append a fresh one. -/
def extUpdate : List (String × Nat × Nat) → String → Nat → List (String × Nat × Nat)
  | [], k, s => [(k, 1, s)]
  | (k0, c0, s0) :: rest, k, s =>
    if k0 = k then (k0, c0 + 1, s0 + s) :: rest
    else (k0, c0, s0) :: extUpdate rest k s

/-- One iteration of the inner loop of `collect_file_stats`.  Faithful to the
source's order of effects: a failing `os.stat` leaves the state untouched; a
filtered-out file is skipped before any aggregate is touched; the aggregates
are incremented *before* `FileEntry` construction, so a construction failure
keeps the increments but omits the file from `all_files`. -/
def processFile (extension_filter : Option String) (st : AggState) (rf : RawFile) :
    AggState :=
  match rf.stat with
  | none => st
  | some stats =>
    let size := stats.st_size
    let ext := pyLower (splitextExt rf.name)
    if skipByFilter extension_filter ext then st
    else
      let st1 : AggState :=
        { st with
          total_size := st.total_size + size
          file_count := st.file_count + 1
          extensions := extUpdate st.extensions ext size }
      match mkFileEntry rf stats ext with
      | none => st1
      | some entry => { st1 with all_files := st1.all_files ++ [entry] }

/-- Insert into a size-descending list, after any earlier equal-keyed
element — the insertion step of a stable descending sort. -/
def insertDescBy (key : α → Nat) (x : α) : List α → List α
  | [] => [x]
  | y :: ys => if key y ≤ key x then x :: y :: ys else y :: insertDescBy key x ys

/-- Stable descending sort by a `Nat` key: the model of Python's
`list.sort(key=..., reverse=True)` / `sorted(..., key=..., reverse=True)`
(Timsort is stable; any stable descending sort computes the same list). -/
def sortDescBy (key : α → Nat) : List α → List α
  | [] => []
  | x :: xs => insertDescBy key x (sortDescBy key xs)

/-- `collect_file_stats`: fold the walk entries through the scan loop, sort
the inventory descending by size, convert the accumulator map into
`ExtensionStats` form, and build the `Report` (whose validation can in
principle reject, hence the `Option`). -/
def collect_file_stats (files : List RawFile) (extension_filter : Option String) :
    Option Report :=
  let st := files.foldl (processFile extension_filter) ⟨0, 0, [], []⟩
  let sorted := sortDescBy (fun e => e.size) st.all_files
  mkReport st.file_count st.total_size
    (st.extensions.map (fun kcs => (kcs.1, ⟨kcs.2.1, kcs.2.2⟩)))
    (sorted.take 10) sorted

/-- The pagination view of `get_paginated_files` (lines 419–421): slice
`report.all_files[offset : offset + limit]` and record the inputs. -/
def get_paginated_files (all_files : List FileEntry) (limit offset : Nat) :
    PaginatedFiles :=
  { total := all_files.length
    limit := limit
    offset := offset
    results := (all_files.drop offset).take limit }

/-- The `get_available_extensions` endpoint body: scan with no filter, sort
the extension entries by descending count (Python `sorted` is stable), and
package them. -/
def get_available_extensions (path : String) (files : List RawFile) :
    Option ExtensionListResponse :=
  (collect_file_stats files none).map fun report =>
    let sorted_extensions := sortDescBy (fun kv => kv.2.count) report.extensions
    { path := path
      total_files := report.file_count
      extensions := sorted_extensions.map fun kv => ⟨kv.1, kv.2.count, kv.2.size⟩ }

/-- Concatenation of the successive pages at offsets `0, L, 2L, …`, stopping
once the offset reaches or exceeds the total (the `0 < L` guard only makes
the recursion well-founded; the endpoint validates `limit ≥ 1`). -/
def concatPagesFrom (all_files : List FileEntry) (limit offset : Nat) :
    List FileEntry :=
  if h : 0 < limit ∧ offset < all_files.length then
    (get_paginated_files all_files limit offset).results ++
      concatPagesFrom all_files limit (offset + limit)
  else []
termination_by all_files.length - offset
decreasing_by omega

/-! ## Characterization helpers used in theorem statements -/

/-- The extension key the scan computes for a walk entry. -/
def extOf (rf : RawFile) : String :=
  pyLower (splitextExt rf.name)

/-- The size the scan reads for a walk entry (junk `0` when `os.stat` raised;
never read in that case). -/
def rawSize (rf : RawFile) : Nat :=
  match rf.stat with
  | none => 0
  | some stats => stats.st_size

/-- A walk entry is *retained* when `os.stat` succeeds and the extension
filter does not skip it — exactly the files whose aggregates are counted. -/
def retainedB (extension_filter : Option String) (rf : RawFile) : Bool :=
  match rf.stat with
  | none => false
  | some _ => ! skipByFilter extension_filter (extOf rf)

/-- The `FileEntry` the scan appends for a walk entry, when `os.stat` and
pydantic construction both succeed. -/
def builtEntry (rf : RawFile) : Option FileEntry :=
  match rf.stat with
  | none => none
  | some stats => mkFileEntry rf stats (extOf rf)

/-- The inventory in traversal encounter order: the successfully constructed
entries of the retained walk entries. -/
def encounterList (files : List RawFile) (extension_filter : Option String) :
    List FileEntry :=
  (files.filter (retainedB extension_filter)).filterMap builtEntry

/-- The accumulator built by folding the retained walk entries. -/
def extFold (m : List (String × Nat × Nat)) (l : List RawFile) :
    List (String × Nat × Nat) :=
  l.foldl (fun acc rf => extUpdate acc (extOf rf) (rawSize rf)) m

/-- The final aggregation state of one scan. -/
def scanState (files : List RawFile) (extension_filter : Option String) : AggState :=
  files.foldl (processFile extension_filter) ⟨0, 0, [], []⟩

/-! ## Lemmas: strings -/

theorem pyLower_eq_empty_iff (s : String) : pyLower s = "" ↔ s = "" := by
  cases s with
  | mk data =>
    simp only [pyLower, String.ext_iff]
    cases data <;> simp

/-! ## Lemmas: one loop iteration -/

theorem processFile_file_count (F : Option String) (st : AggState) (rf : RawFile) :
    (processFile F st rf).file_count =
      st.file_count + (if retainedB F rf then 1 else 0) := by
  unfold processFile retainedB extOf
  cases hs : rf.stat with
  | none => simp
  | some stats =>
    by_cases hsk : skipByFilter F (pyLower (splitextExt rf.name)) = true
    · simp [hsk]
    · cases hm : mkFileEntry rf stats (pyLower (splitextExt rf.name)) <;>
        simp [hsk, hm]

theorem processFile_total_size (F : Option String) (st : AggState) (rf : RawFile) :
    (processFile F st rf).total_size =
      st.total_size + (if retainedB F rf then rawSize rf else 0) := by
  unfold processFile retainedB extOf rawSize
  cases hs : rf.stat with
  | none => simp
  | some stats =>
    by_cases hsk : skipByFilter F (pyLower (splitextExt rf.name)) = true
    · simp [hsk]
    · cases hm : mkFileEntry rf stats (pyLower (splitextExt rf.name)) <;>
        simp [hsk, hm]

theorem processFile_extensions (F : Option String) (st : AggState) (rf : RawFile) :
    (processFile F st rf).extensions =
      if retainedB F rf then extUpdate st.extensions (extOf rf) (rawSize rf)
      else st.extensions := by
  unfold processFile retainedB extOf rawSize
  cases hs : rf.stat with
  | none => simp
  | some stats =>
    by_cases hsk : skipByFilter F (pyLower (splitextExt rf.name)) = true
    · simp [hsk]
    · cases hm : mkFileEntry rf stats (pyLower (splitextExt rf.name)) <;>
        simp [hsk, hm]

theorem processFile_all_files (F : Option String) (st : AggState) (rf : RawFile) :
    (processFile F st rf).all_files =
      st.all_files ++ (if retainedB F rf then (builtEntry rf).toList else []) := by
  unfold processFile retainedB extOf
  cases hs : rf.stat with
  | none => simp [builtEntry, hs]
  | some stats =>
    by_cases hsk : skipByFilter F (pyLower (splitextExt rf.name)) = true
    · simp [hsk]
    · cases hm : mkFileEntry rf stats (pyLower (splitextExt rf.name)) <;>
        simp [hsk, hm, builtEntry, hs, extOf]

/-! ## Lemmas: the whole fold, one aggregate at a time -/

theorem foldl_file_count (F : Option String) :
    ∀ (files : List RawFile) (st : AggState),
      (files.foldl (processFile F) st).file_count =
        st.file_count + (files.filter (retainedB F)).length := by
  intro files
  induction files with
  | nil => intro st; simp
  | cons rf rest ih =>
    intro st
    rw [List.foldl_cons, ih, processFile_file_count]
    by_cases hr : retainedB F rf <;> simp [hr, List.filter_cons] <;> omega

theorem foldl_total_size (F : Option String) :
    ∀ (files : List RawFile) (st : AggState),
      (files.foldl (processFile F) st).total_size =
        st.total_size + ((files.filter (retainedB F)).map rawSize).sum := by
  intro files
  induction files with
  | nil => intro st; simp
  | cons rf rest ih =>
    intro st
    rw [List.foldl_cons, ih, processFile_total_size]
    by_cases hr : retainedB F rf <;> simp [hr, List.filter_cons] <;> omega

theorem foldl_extensions (F : Option String) :
    ∀ (files : List RawFile) (st : AggState),
      (files.foldl (processFile F) st).extensions =
        extFold st.extensions (files.filter (retainedB F)) := by
  intro files
  induction files with
  | nil => intro st; simp [extFold]
  | cons rf rest ih =>
    intro st
    rw [List.foldl_cons, ih, processFile_extensions]
    by_cases hr : retainedB F rf <;> simp [hr, List.filter_cons, extFold]

theorem foldl_all_files (F : Option String) :
    ∀ (files : List RawFile) (st : AggState),
      (files.foldl (processFile F) st).all_files =
        st.all_files ++ (files.filter (retainedB F)).filterMap builtEntry := by
  intro files
  induction files with
  | nil => intro st; simp
  | cons rf rest ih =>
    intro st
    rw [List.foldl_cons, ih, processFile_all_files]
    by_cases hr : retainedB F rf
    · cases hb : builtEntry rf <;>
        simp [hr, hb, List.filter_cons, List.filterMap_cons]
    · simp [hr, List.filter_cons]

theorem scanState_file_count (files : List RawFile) (F : Option String) :
    (scanState files F).file_count = (files.filter (retainedB F)).length := by
  rw [scanState, foldl_file_count]; simp

theorem scanState_total_size (files : List RawFile) (F : Option String) :
    (scanState files F).total_size =
      ((files.filter (retainedB F)).map rawSize).sum := by
  rw [scanState, foldl_total_size]; simp

theorem scanState_extensions (files : List RawFile) (F : Option String) :
    (scanState files F).extensions = extFold [] (files.filter (retainedB F)) := by
  rw [scanState, foldl_extensions]

theorem scanState_all_files (files : List RawFile) (F : Option String) :
    (scanState files F).all_files = encounterList files F := by
  rw [scanState, foldl_all_files, encounterList]
  simp

/-! ## Lemmas: the stable descending sort -/

theorem mem_insertDescBy (key : α → Nat) (x z : α) :
    ∀ l : List α, z ∈ insertDescBy key x l ↔ z = x ∨ z ∈ l := by
  intro l
  induction l with
  | nil => simp [insertDescBy]
  | cons y ys ih =>
    by_cases hle : key y ≤ key x
    · simp [insertDescBy, hle]
    · simp [insertDescBy, hle, ih]
      tauto

theorem pairwise_insertDescBy (key : α → Nat) (x : α) :
    ∀ l : List α, List.Pairwise (fun a b => key b ≤ key a) l →
      List.Pairwise (fun a b => key b ≤ key a) (insertDescBy key x l) := by
  intro l
  induction l with
  | nil => intro _; simp [insertDescBy]
  | cons y ys ih =>
    intro hp
    rw [List.pairwise_cons] at hp
    by_cases hle : key y ≤ key x
    · rw [insertDescBy, if_pos hle, List.pairwise_cons]
      refine ⟨?_, List.pairwise_cons.mpr hp⟩
      intro z hz
      rcases List.mem_cons.mp hz with rfl | hz
      · exact hle
      · exact Nat.le_trans (hp.1 z hz) hle
    · rw [insertDescBy, if_neg hle, List.pairwise_cons]
      refine ⟨?_, ih hp.2⟩
      intro z hz
      rcases (mem_insertDescBy key x z ys).mp hz with rfl | hz
      · exact Nat.le_of_lt (Nat.lt_of_not_le hle)
      · exact hp.1 z hz

theorem pairwise_sortDescBy (key : α → Nat) :
    ∀ l : List α, List.Pairwise (fun a b => key b ≤ key a) (sortDescBy key l) := by
  intro l
  induction l with
  | nil => simp [sortDescBy]
  | cons x xs ih => exact pairwise_insertDescBy key x _ ih

theorem filter_insertDescBy (key : α → Nat) (x : α) (n : Nat) :
    ∀ l : List α,
      (insertDescBy key x l).filter (fun a => decide (key a = n)) =
        (x :: l).filter (fun a => decide (key a = n)) := by
  intro l
  induction l with
  | nil => simp [insertDescBy]
  | cons y ys ih =>
    by_cases hle : key y ≤ key x
    · rw [insertDescBy, if_pos hle]
    · rw [insertDescBy, if_neg hle]
      by_cases hy : key y = n
      · have hx : ¬ key x = n := fun hx => hle (by omega)
        simp [List.filter_cons, hy, hx, ih]
      · simp [List.filter_cons, hy, ih]

theorem filter_sortDescBy (key : α → Nat) (n : Nat) :
    ∀ l : List α,
      (sortDescBy key l).filter (fun a => decide (key a = n)) =
        l.filter (fun a => decide (key a = n)) := by
  intro l
  induction l with
  | nil => simp [sortDescBy]
  | cons x xs ih =>
    rw [sortDescBy, filter_insertDescBy, List.filter_cons, List.filter_cons, ih]

/-! ## Lemmas: report validation -/

theorem validate_iff_chain :
    ∀ l : List FileEntry,
      validate_largest_files l = true ↔
        List.Chain' (fun a b => b.size ≤ a.size) l
  | [] => by simp [validate_largest_files]
  | [a] => by simp [validate_largest_files]
  | a :: b :: rest => by
    rw [validate_largest_files, List.chain'_cons, Bool.and_eq_true,
      validate_iff_chain (b :: rest)]
    simp [Nat.not_lt]

theorem mkReport_eq_some (fc ts : Nat) (exts : List (String × ExtensionStats))
    (lf af : List FileEntry) (hchain : List.Chain' (fun a b => b.size ≤ a.size) lf)
    (hlen : lf.length ≤ 50) :
    mkReport fc ts exts lf af = some ⟨fc, ts, stripExtKeys exts, lf, af⟩ := by
  rw [mkReport, if_pos]
  rw [Bool.and_eq_true, validate_iff_chain]
  exact ⟨by simpa using hlen, hchain⟩

/-! ## Lemmas: the report produced by one scan -/

/-- The report `collect_file_stats` builds (validation never rejects it). -/
def reportOf (files : List RawFile) (extension_filter : Option String) : Report :=
  let st := scanState files extension_filter
  let sorted := sortDescBy (fun e => e.size) st.all_files
  ⟨st.file_count, st.total_size,
    stripExtKeys (st.extensions.map (fun kcs => (kcs.1, ⟨kcs.2.1, kcs.2.2⟩))),
    sorted.take 10, sorted⟩

theorem collect_file_stats_eq (files : List RawFile) (F : Option String) :
    collect_file_stats files F = some (reportOf files F) := by
  rw [collect_file_stats, reportOf]
  apply mkReport_eq_some
  · exact ((pairwise_sortDescBy (fun e : FileEntry => e.size) _).chain').take 10
  · exact Nat.le_trans (List.length_take_le 10 _) (by omega)

/-! ## Lemmas: assorted -/

theorem take_min_length (n : Nat) (l : List α) :
    l.take (min n l.length) = l.take n := by
  by_cases h : l.length ≤ n
  · rw [Nat.min_eq_right h, List.take_length, List.take_of_length_le h]
  · rw [Nat.min_eq_left (by omega)]

theorem concatPagesFrom_eq_drop (all_files : List FileEntry) (L : Nat) (hL : 0 < L) :
    ∀ offset, concatPagesFrom all_files L offset = all_files.drop offset := by
  have key : ∀ (n offset : Nat), all_files.length - offset ≤ n →
      concatPagesFrom all_files L offset = all_files.drop offset := by
    intro n
    induction n with
    | zero =>
      intro o ho
      rw [concatPagesFrom, dif_neg (by omega)]
      exact (List.drop_eq_nil_iff.mpr (by omega)).symm
    | succ n ih =>
      intro o ho
      by_cases hc : o < all_files.length
      · rw [concatPagesFrom, dif_pos ⟨hL, hc⟩, ih (o + L) (by omega),
          get_paginated_files]
        have hsplit :
            (all_files.drop o).take L ++ (all_files.drop o).drop L =
              all_files.drop o := List.take_append_drop L (all_files.drop o)
        rw [List.drop_drop] at hsplit
        exact hsplit
      · rw [concatPagesFrom, dif_neg (by omega)]
        exact (List.drop_eq_nil_iff.mpr (by omega)).symm
  intro offset
  exact key all_files.length offset (by omega)

theorem filter_retained_idem (files : List RawFile) (F : Option String) :
    (files.filter (retainedB F)).filter (retainedB F) =
      files.filter (retainedB F) := by
  induction files with
  | nil => simp
  | cons rf rest ih =>
    by_cases hr : retainedB F rf <;> simp [List.filter_cons, hr, ih]

theorem reportOf_filter_retained (files : List RawFile) (F : Option String) :
    reportOf (files.filter (retainedB F)) F = reportOf files F := by
  simp only [reportOf, scanState_file_count, scanState_total_size,
    scanState_extensions, scanState_all_files, encounterList,
    filter_retained_idem]

/-! ## Concrete fixtures (the specification's worked scenario: `a.txt` of 100
bytes, `b.txt` of 50 bytes, `c.log` of 200 bytes in one directory) -/

def statN (n : Nat) : StatResult := ⟨n, 0, 0, 0, 7, 420, 0, 0⟩

def walkATxt : RawFile := ⟨"/d", "a.txt", some (statN 100), false⟩

def walkBTxt : RawFile := ⟨"/d", "b.txt", some (statN 50), false⟩

def walkCLog : RawFile := ⟨"/d", "c.log", some (statN 200), false⟩

def entryATxt : FileEntry := ⟨100, "/d/a.txt", "a.txt", ".txt", 0, 0, 0, false, 7, 420, 0, 0⟩

def entryBTxt : FileEntry := ⟨50, "/d/b.txt", "b.txt", ".txt", 0, 0, 0, false, 7, 420, 0, 0⟩

def entryCLog : FileEntry := ⟨200, "/d/c.log", "c.log", ".log", 0, 0, 0, false, 7, 420, 0, 0⟩

def demoWalk : List RawFile := [walkATxt, walkBTxt, walkCLog]

def demoReport : Report :=
  ⟨3, 350, [(".txt", ⟨2, 150⟩), (".log", ⟨1, 200⟩)],
    [entryCLog, entryATxt, entryBTxt], [entryCLog, entryATxt, entryBTxt]⟩

/-- An entry whose only relevant datum is its size, for pagination fixtures. -/
def entryOfSize (n : Nat) : FileEntry := ⟨n, "/d/a", "a", "", 0, 0, 0, false, 7, 420, 0, 0⟩

/-! ## The claims -/

/-- **C1.** For every directory walk and optional extension filter, the report
produced by `collect_file_stats` has `total_size` equal to the sum of `size`
over exactly the retained walk entries (those that stat successfully and match
the filter) and `file_count` equal to their number; the filtered-out entries
contribute to no statistic (removing them from the walk leaves the report
unchanged). -/
theorem C1_report_totals (files : List RawFile) (F : Option String) (r : Report)
    (h : collect_file_stats files F = some r) :
    r.total_size = ((files.filter (retainedB F)).map rawSize).sum
    ∧ r.file_count = (files.filter (retainedB F)).length
    ∧ collect_file_stats (files.filter (retainedB F)) F = some r := by
  rw [collect_file_stats_eq] at h
  obtain rfl := Option.some.inj h
  refine ⟨?_, ?_, ?_⟩
  · simp only [reportOf, scanState_total_size]
  · simp only [reportOf, scanState_file_count]
  · rw [collect_file_stats_eq, reportOf_filter_retained]

/-- Witness for C1 on the specification's three-file scenario. -/
theorem C1_witness :
    demoReport.total_size = ((demoWalk.filter (retainedB none)).map rawSize).sum
    ∧ demoReport.file_count = (demoWalk.filter (retainedB none)).length
    ∧ collect_file_stats (demoWalk.filter (retainedB none)) none = some demoReport :=
  C1_report_totals demoWalk none demoReport (by decide)

/-- **C2.** In every report `collect_file_stats` produces, `all_files` is
sorted in non-increasing order of size, records of equal size keep their
relative traversal encounter order (the filter of each size class is
unchanged between the encounter-ordered inventory and `all_files`), and
`largest_files` is the prefix `all_files[:min(10, len(all_files))]`. -/
theorem C2_sorted_inventory (files : List RawFile) (F : Option String) (r : Report)
    (h : collect_file_stats files F = some r) :
    List.Pairwise (fun a b => b.size ≤ a.size) r.all_files
    ∧ (∀ n, r.all_files.filter (fun e => decide (e.size = n)) =
        (encounterList files F).filter (fun e => decide (e.size = n)))
    ∧ r.largest_files = r.all_files.take (min 10 r.all_files.length) := by
  rw [collect_file_stats_eq] at h
  obtain rfl := Option.some.inj h
  refine ⟨?_, ?_, ?_⟩
  · simp only [reportOf]
    exact pairwise_sortDescBy (fun e : FileEntry => e.size) _
  · intro n
    simp only [reportOf]
    rw [filter_sortDescBy (fun e : FileEntry => e.size) n, scanState_all_files]
  · simp only [reportOf]
    rw [take_min_length]

/-- Witness for C2 on the specification's three-file scenario (size class 50
instantiates the stability clause). -/
theorem C2_witness :
    List.Pairwise (fun a b => b.size ≤ a.size) demoReport.all_files
    ∧ demoReport.all_files.filter (fun e => decide (e.size = 50)) =
        (encounterList demoWalk none).filter (fun e => decide (e.size = 50))
    ∧ demoReport.largest_files =
        demoReport.all_files.take (min 10 demoReport.all_files.length) := by
  obtain ⟨h1, h2, h3⟩ := C2_sorted_inventory demoWalk none demoReport (by decide)
  exact ⟨h1, h2 50, h3⟩

/-- **C3.** The claim says a file whose metadata extraction fails at *any*
point contributes 0 to `total_size`, 0 to `file_count` and nothing to any
per-extension entry.  The code violates this: it increments `total_size`,
`file_count` and the extension map *before* constructing the `FileEntry`, so
when construction raises after a successful `os.stat` — here a 5-byte file
literally named `" "`, whose pydantic-stripped name fails `min_length=1` —
the report counts the file (`file_count = 1`, `total_size = 5`, an `""`
extension entry of count 1 and size 5) while `all_files` stays empty.  This
also contradicts the code's own field documentation (`all_files` is the
"Complete list of all analyzed files" yet misses an analyzed, counted file). -/
theorem C3_partial_aggregation_on_entry_failure :
    collect_file_stats [⟨"/d", " ", some (statN 5), false⟩] none =
      some ⟨1, 5, [("", ⟨1, 5⟩)], [], []⟩ := by decide

def walkBTxtSpace : RawFile := ⟨"/d", "b.txt ", some (statN 50), false⟩

def entryBTxtSpace : FileEntry := ⟨50, "/d/b.txt", "b.txt", ".txt", 0, 0, 0, false, 7, 420, 0, 0⟩

/-- **C4.** The claim says every `extensions[k]` entry carries the count and
size-sum of exactly the retained records whose extension equals `k`.  The
code violates this: the scan keys its accumulator by the *raw* lowercased
`splitext` suffix, but `Report` construction whitespace-strips the dict keys
(the model config's `str_strip_whitespace=True` applies to the `Dict[str, …]`
key schema), and keys that collide after stripping merge, the later value
silently overwriting the earlier.  Here the walk holds `a.txt` (100 bytes)
and a file literally named `"b.txt "` (trailing space, 50 bytes): both
retained records carry extension `".txt"` (their `extension` field is
stripped too), yet the report's `".txt"` entry is `{count 1, size 50}` — not
2 records / 150 bytes — so a counted, retained record is missing from its
extension rollup and the per-extension sizes (50) no longer sum to
`total_size` (150), contradicting the claim, spec §3/§8, and the code's own
field documentation ("Statistics grouped by file extension"). -/
theorem C4_stripped_key_overwrite :
    collect_file_stats [walkATxt, walkBTxtSpace] none =
      some ⟨2, 150, [(".txt", ⟨1, 50⟩)], [entryATxt, entryBTxtSpace],
        [entryATxt, entryBTxtSpace]⟩ := by decide

/-- **C5.** For every inventory, every limit in `[1, 100]` and every offset,
the paginated view returns the slice `all_files[offset : offset + limit]`, its
length is `max(0, min(limit, total - offset))`, and the derived booleans are
`has_next = (offset + limit < total)` and `has_previous = (offset > 0)`. -/
theorem C5_pagination (af : List FileEntry) (L O : Nat)
    (h1 : 1 ≤ L) (h2 : L ≤ 100) :
    (get_paginated_files af L O).results = (af.drop O).take L
    ∧ ((get_paginated_files af L O).results.length : Int) =
        max 0 (min (L : Int) ((af.length : Int) - (O : Int)))
    ∧ ((get_paginated_files af L O).has_next = true ↔ O + L < af.length)
    ∧ ((get_paginated_files af L O).has_previous = true ↔ 0 < O) := by
  refine ⟨rfl, ?_, ?_, ?_⟩
  · simp only [get_paginated_files, List.length_take, List.length_drop]
    omega
  · simp [get_paginated_files, PaginatedFiles.has_next]
  · simp [get_paginated_files, PaginatedFiles.has_previous]

/-- Witness for C5: limit 2, offset 1 over a three-entry inventory (the
specification's pagination scenario). -/
theorem C5_witness :
    (get_paginated_files [entryOfSize 200, entryOfSize 100, entryOfSize 50] 2 1).results =
        (([entryOfSize 200, entryOfSize 100, entryOfSize 50].drop 1).take 2)
    ∧ (((get_paginated_files [entryOfSize 200, entryOfSize 100, entryOfSize 50] 2 1).results.length : Int) =
        max 0 (min (2 : Int)
          ((([entryOfSize 200, entryOfSize 100, entryOfSize 50] : List FileEntry).length : Int) - (1 : Int))))
    ∧ ((get_paginated_files [entryOfSize 200, entryOfSize 100, entryOfSize 50] 2 1).has_next = true ↔
        1 + 2 < ([entryOfSize 200, entryOfSize 100, entryOfSize 50] : List FileEntry).length)
    ∧ ((get_paginated_files [entryOfSize 200, entryOfSize 100, entryOfSize 50] 2 1).has_previous = true ↔
        0 < 1) :=
  C5_pagination [entryOfSize 200, entryOfSize 100, entryOfSize 50] 2 1
    (by decide) (by decide)

/-- **C6.** (amended) Given field values whose remaining constraints hold,
`Report` construction fails exactly when `largest_files` has an adjacent pair
whose earlier element is strictly smaller than the later one (it is not
monotonically non-increasing by size) or is longer than 50 entries; otherwise
it succeeds with `file_count`, `total_size`, `largest_files` and `all_files`
unchanged and with the `extensions` keys whitespace-stripped (colliding
stripped keys merging, the later value overwriting).  The original claim's
"succeeds unchanged" is refuted by `C6_counterexample`. -/
theorem C6_report_validation (fc ts : Nat) (exts : List (String × ExtensionStats))
    (lf af : List FileEntry) :
    (mkReport fc ts exts lf af = none ↔
      ¬ List.Chain' (fun a b => b.size ≤ a.size) lf ∨ 50 < lf.length)
    ∧ (List.Chain' (fun a b => b.size ≤ a.size) lf → lf.length ≤ 50 →
        mkReport fc ts exts lf af = some ⟨fc, ts, stripExtKeys exts, lf, af⟩) := by
  refine ⟨?_, mkReport_eq_some fc ts exts lf af⟩
  rw [mkReport]
  by_cases hc : (decide (lf.length ≤ 50) && validate_largest_files lf) = true
  · rw [if_pos hc]
    rw [Bool.and_eq_true, validate_iff_chain, decide_eq_true_eq] at hc
    simp only [reduceCtorEq, false_iff]
    intro hcon
    rcases hcon with hcon | hcon
    · exact hcon hc.2
    · omega
  · rw [if_neg hc]
    rw [Bool.and_eq_true, validate_iff_chain, decide_eq_true_eq] at hc
    simp only [true_iff]
    by_contra hcon
    push_neg at hcon
    exact hc ⟨by omega, hcon.1⟩

/-- Counterexample to C6 as stated: a report value whose `largest_files`
passes validation is *not* constructed unchanged — the whitespace-bearing
extension key `".txt "` is stripped to `".txt"` during construction. -/
theorem C6_counterexample :
    mkReport 1 50 [(".txt ", ⟨1, 50⟩)] [] [] ≠
      some ⟨1, 50, [(".txt ", ⟨1, 50⟩)], [], []⟩ := by decide

/-- Witness for C6: a two-entry descending `largest_files` list passes
validation and the report is built with the extension keys stripped. -/
theorem C6_witness :
    mkReport 2 300 [(".txt ", ⟨2, 300⟩)] [entryOfSize 200, entryOfSize 100]
        [entryOfSize 200, entryOfSize 100] =
      some ⟨2, 300, stripExtKeys [(".txt ", ⟨2, 300⟩)],
        [entryOfSize 200, entryOfSize 100], [entryOfSize 200, entryOfSize 100]⟩ :=
  (C6_report_validation 2 300 [(".txt ", ⟨2, 300⟩)] [entryOfSize 200, entryOfSize 100]
      [entryOfSize 200, entryOfSize 100]).2
    (by rw [List.chain'_cons]; exact ⟨by decide, List.chain'_singleton _⟩) (by decide)

/-- **C7.** With a non-empty filter string `F`, a successfully stat'd walk
entry is retained by the scan exactly when the lowercasing of `F` equals the
file's (lowercased, `splitext`-derived) extension — so matching is
case-insensitive and requires the same leading-dot convention; on a
single-file walk, retention is equivalent to the report counting one file. -/
theorem C7_filter_case_insensitive (F : String) (rf : RawFile) (stats : StatResult)
    (hF : F ≠ "") (hs : rf.stat = some stats) :
    (retainedB (some F) rf = true ↔ pyLower F = extOf rf)
    ∧ ∀ r, collect_file_stats [rf] (some F) = some r →
        (r.file_count = 1 ↔ pyLower F = extOf rf) := by
  have hret : retainedB (some F) rf = true ↔ pyLower F = extOf rf := by
    simp [retainedB, hs, skipByFilter, hF, eq_comm]
  refine ⟨hret, ?_⟩
  intro r h
  rw [collect_file_stats_eq] at h
  obtain rfl := Option.some.inj h
  simp only [reportOf, scanState_file_count]
  by_cases hr : retainedB (some F) rf
  · simp [List.filter_cons, hr, hret.mp hr]
  · simp only [List.filter_cons, hr, Bool.false_eq_true, if_false,
      List.filter_nil, List.length_nil]
    constructor
    · omega
    · intro hp
      exact absurd (hret.mpr hp) hr

def walkApy : RawFile := ⟨"/d", "a.py", some (statN 3), false⟩

/-- Witness for C7: the filter `".PY"` matches a file named `a.py`. -/
theorem C7_witness : retainedB (some ".PY") walkApy = true :=
  ((C7_filter_case_insensitive ".PY" walkApy (statN 3) (by decide) rfl).1).mpr (by decide)

/-- **C8.** The extension-list view is ordered by non-increasing count, and
its `total_files` is the underlying report's `file_count`. -/
theorem C8_extension_list (path : String) (files : List RawFile)
    (resp : ExtensionListResponse)
    (h : get_available_extensions path files = some resp) :
    List.Pairwise (fun a b => b.count ≤ a.count) resp.extensions
    ∧ ∃ report, collect_file_stats files none = some report ∧
        resp.total_files = report.file_count := by
  rw [get_available_extensions, collect_file_stats_eq, Option.map_some'] at h
  obtain rfl := Option.some.inj h
  constructor
  · refine List.Pairwise.map _ ?_
      (pairwise_sortDescBy (fun kv : String × ExtensionStats => kv.2.count) _)
    intro a b hab
    exact hab
  · exact ⟨reportOf files none, collect_file_stats_eq files none, rfl⟩

/-- Witness for C8 on the three-file scenario (`.txt` twice, `.log` once). -/
theorem C8_witness :
    List.Pairwise (fun a b => b.count ≤ a.count)
      (⟨"/d", 3, [⟨".txt", 2, 150⟩, ⟨".log", 1, 200⟩]⟩ : ExtensionListResponse).extensions
    ∧ ∃ report, collect_file_stats demoWalk none = some report ∧
        (⟨"/d", 3, [⟨".txt", 2, 150⟩, ⟨".log", 1, 200⟩]⟩ :
          ExtensionListResponse).total_files = report.file_count :=
  C8_extension_list "/d" demoWalk _ (by decide)

/-- **C9.** For every inventory and every limit in `[1, 100]`, concatenating
the pages at offsets `0, L, 2L, …` (until the offset reaches the total)
reconstructs `all_files` exactly. -/
theorem C9_pages_reconstruct (af : List FileEntry) (L : Nat)
    (h1 : 1 ≤ L) (h2 : L ≤ 100) :
    concatPagesFrom af L 0 = af := by
  rw [concatPagesFrom_eq_drop af L h1 0, List.drop_zero]

/-- Witness for C9: three entries, pages of two. -/
theorem C9_witness :
    concatPagesFrom [entryOfSize 200, entryOfSize 100, entryOfSize 50] 2 0 =
      [entryOfSize 200, entryOfSize 100, entryOfSize 50] :=
  C9_pages_reconstruct [entryOfSize 200, entryOfSize 100, entryOfSize 50] 2
    (by decide) (by decide)

/-- **C10.** Scanning with the empty string as extension filter produces
exactly the report of an unfiltered scan (Python string truthiness makes the
empty filter inactive); and any non-empty filter excludes every extensionless
file (its lowercasing is non-empty, never equal to the empty extension key),
so no filter value selects only the extensionless files. -/
theorem C10_empty_filter (files : List RawFile) :
    collect_file_stats files (some "") = collect_file_stats files none
    ∧ ∀ (F : String) (rf : RawFile) (stats : StatResult),
        F ≠ "" → rf.stat = some stats → extOf rf = "" →
          retainedB (some F) rf = false := by
  constructor
  · have hpf : processFile (some "") = processFile none := by
      funext st rf
      unfold processFile
      cases rf.stat with
      | none => rfl
      | some stats => simp [skipByFilter]
    rw [collect_file_stats, collect_file_stats, hpf]
  · intro F rf stats hF hs hext
    have hne : pyLower F ≠ "" := fun hc => hF ((pyLower_eq_empty_iff F).mp hc)
    simp [retainedB, hs, skipByFilter, hF, hext, Ne.symm hne]

def walkNoExt : RawFile := ⟨"/d", "README", some (statN 4), false⟩

/-- Witness for C10: the empty filter reproduces the unfiltered three-file
report, and the filter `".py"` does not retain the extensionless `README`. -/
theorem C10_witness :
    collect_file_stats demoWalk (some "") = collect_file_stats demoWalk none
    ∧ retainedB (some ".py") walkNoExt = false :=
  ⟨(C10_empty_filter demoWalk).1,
    (C10_empty_filter []).2 ".py" walkNoExt (statN 4) (by decide) rfl (by decide)⟩

end FileStats
